import Mathlib

/-!
Verification of the voxelization code in
`labs/L6-protein-deep-learning/laboratory.ipynb`.

The notebook builds a binary occupancy grid from a list of atoms:

* `symbols = ['C', 'N', 'O', 'S']`
* `bounding_box = np.floor(pos.min(axis=0)), np.ceil(pos.max(axis=0))`
* `box_size = (bounding_box[1] - bounding_box[0]).astype(int)`
* `grid = np.zeros([*box_size, 4])`
* for each atom:
  `position = np.floor(pos[i] - bounding_box[0]).astype(int)` and
  `grid[position[0], position[1], position[2], symbols.index(symbol)] = 1.`

Coordinates are modelled as rationals.  `np.floor` / `np.ceil` are modelled
by `Rat.floor` / `Rat.ceil`, `astype(int)` by truncation toward zero,
`symbols.index` by a first-occurrence lookup that can fail, the `ValueError`
raised by `list.index` on a missing symbol by `unknownElement`, the
`ValueError` raised by `pos.min(axis=0)` on an empty array by `emptyInput`,
and the `IndexError` raised by an out-of-range array write by `outOfBounds`.
-/

namespace Voxel

/-- One row of the `pos` array: a 3D coordinate. -/
structure Vec3 where
  x : ℚ
  y : ℚ
  z : ℚ
deriving DecidableEq

/-- An atom record: a position (one row of `GetPositions()`) paired with the
element symbol returned by `atom.GetSymbol()`. -/
structure Atom where
  pos : Vec3
  element : String
deriving DecidableEq

/-- The alphabet: `symbols = ['C', 'N', 'O', 'S']`. -/
def symbols : List String := ["C", "N", "O", "S"]

/-- The failure modes of the pipeline. -/
inductive VoxError where
  | emptyInput
  | unknownElement (symbol : String)
  | outOfBounds
deriving DecidableEq

deriving instance DecidableEq for Except

/-- Component-wise minimum of two coordinate vectors. -/
def vmin (v w : Vec3) : Vec3 := ⟨min v.x w.x, min v.y w.y, min v.z w.z⟩

/-- Component-wise maximum of two coordinate vectors. -/
def vmax (v w : Vec3) : Vec3 := ⟨max v.x w.x, max v.y w.y, max v.z w.z⟩

/-- Computes `pos.min(axis=0)` over the rows `hd, tl[0].pos, tl[1].pos, ...`. -/
def posMin (hd : Vec3) (tl : List Atom) : Vec3 :=
  tl.foldl (fun v b => vmin v b.pos) hd

/-- Computes `pos.max(axis=0)` over the rows `hd, tl[0].pos, tl[1].pos, ...`. -/
def posMax (hd : Vec3) (tl : List Atom) : Vec3 :=
  tl.foldl (fun v b => vmax v b.pos) hd

/-- Applies `np.floor` component-wise (result still real-valued, but integral). -/
def vfloor (v : Vec3) : Vec3 :=
  ⟨(Rat.floor v.x : ℚ), (Rat.floor v.y : ℚ), (Rat.floor v.z : ℚ)⟩

/-- Applies `np.ceil` component-wise (result still real-valued, but integral). -/
def vceil (v : Vec3) : Vec3 :=
  ⟨(Rat.ceil v.x : ℚ), (Rat.ceil v.y : ℚ), (Rat.ceil v.z : ℚ)⟩

/-- Computes `bounding_box = np.floor(pos.min(axis=0)), np.ceil(pos.max(axis=0))`.
`pos.min` of a zero-length array raises `ValueError`, modelled as
`emptyInput`. -/
def bounding_box : List Atom → Except VoxError (Vec3 × Vec3)
  | [] => .error .emptyInput
  | a :: rest => .ok (vfloor (posMin a.pos rest), vceil (posMax a.pos rest))

/-- Models `astype(int)`: NumPy float-to-int conversion truncates toward zero. -/
def truncQ (q : ℚ) : ℤ :=
  if 0 ≤ q then Rat.floor q else Rat.ceil q

/-- The `grid` array: its spatial shape `(sx, sy, sz)` (= `box_size`), its
channel count `nc`, and its contents as a function of indices. -/
structure VoxelGrid where
  sx : ℤ
  sy : ℤ
  sz : ℤ
  nc : ℕ
  val : ℤ → ℤ → ℤ → ℕ → ℚ

/-- Computes `box_size = (bounding_box[1] - bounding_box[0]).astype(int)` and then
`grid = np.zeros([*box_size, 4])`; the hard-coded `4` is `symbols.length`. -/
def allocate_grid (b0 b1 : Vec3) : VoxelGrid :=
  { sx := truncQ (b1.x - b0.x)
    sy := truncQ (b1.y - b0.y)
    sz := truncQ (b1.z - b0.z)
    nc := symbols.length
    val := fun _ _ _ _ => 0 }

/-- Python's `list.index`: the index of the first occurrence, or a failure
(`ValueError`) when the item does not occur. -/
def index_of (s : String) : List String → Option ℕ
  | [] => none
  | t :: rest => if t = s then some 0 else (index_of s rest).map (· + 1)

/-- The integer voxel index of a position:
`np.floor(pos[i] - bounding_box[0]).astype(int)`.  The flooring already
yields integral values, on which `astype(int)` is the identity. -/
structure Idx3 where
  ix : ℤ
  iy : ℤ
  iz : ℤ
deriving DecidableEq

/-- Computes `np.floor(pos[i] - bounding_box[0])`, as integers. -/
def voxelIdx (b0 : Vec3) (p : Vec3) : Idx3 :=
  ⟨Rat.floor (p.x - b0.x), Rat.floor (p.y - b0.y), Rat.floor (p.z - b0.z)⟩

/-- Whether a cell index is a valid in-range index of `g`.  NumPy raises
`IndexError` for an index `≥ size` (or `< -size`); the indices produced by
`voxelIdx` from a box covering the atoms are never negative (proved below),
so flagging every index outside `[0, size)` models the write faithfully. -/
def inBounds (g : VoxelGrid) (i j k : ℤ) (c : ℕ) : Bool :=
  decide (0 ≤ i) && decide (i < g.sx) && decide (0 ≤ j) && decide (j < g.sy) &&
    decide (0 ≤ k) && decide (k < g.sz) && decide (c < g.nc)

/-- The array write `grid[i, j, k, c] = 1.`. -/
def setCell (g : VoxelGrid) (i j k : ℤ) (c : ℕ) : VoxelGrid :=
  { g with
    val := fun i' j' k' c' =>
      if i' = i ∧ j' = j ∧ k' = k ∧ c' = c then 1 else g.val i' j' k' c' }

/-- One iteration of the rasterization loop for atom `a`.  Python evaluates
the index tuple first, so `symbols.index(symbol)` fails on an unknown symbol
before the array access can fail on an out-of-range index. -/
def rasterizeAtom (b0 : Vec3) (g : VoxelGrid) (a : Atom) :
    Except VoxError VoxelGrid :=
  match index_of a.element symbols with
  | none => .error (.unknownElement a.element)
  | some c =>
    if inBounds g (voxelIdx b0 a.pos).ix (voxelIdx b0 a.pos).iy
        (voxelIdx b0 a.pos).iz c then
      .ok (setCell g (voxelIdx b0 a.pos).ix (voxelIdx b0 a.pos).iy
        (voxelIdx b0 a.pos).iz c)
    else
      .error .outOfBounds

/-- The whole `for i, atom in enumerate(mol.GetAtoms())` loop; the first
raised error aborts the run. -/
def rasterizeList (b0 : Vec3) (g : VoxelGrid) : List Atom →
    Except VoxError VoxelGrid
  | [] => .ok g
  | a :: rest =>
    match rasterizeAtom b0 g a with
    | .ok g' => rasterizeList b0 g' rest
    | .error e => .error e

/-- The notebook's pipeline: bounding box, grid allocation, rasterization. -/
def voxelize (atoms : List Atom) : Except VoxError VoxelGrid :=
  match bounding_box atoms with
  | .error e => .error e
  | .ok (b0, b1) => rasterizeList b0 (allocate_grid b0 b1) atoms

/-- The error of a failed run, if any. -/
def errOf : Except VoxError VoxelGrid → Option VoxError
  | .ok _ => none
  | .error e => some e

/-- A grid cell read through the `Except` wrapper (0 for a failed run). -/
def gridVal (r : Except VoxError VoxelGrid) (i j k : ℤ) (c : ℕ) : ℚ :=
  match r with
  | .ok g => g.val i j k c
  | .error _ => 0

/-- The grid shape read through the `Except` wrapper. -/
def gridShape (r : Except VoxError VoxelGrid) : ℤ × ℤ × ℤ × ℕ :=
  match r with
  | .ok g => (g.sx, g.sy, g.sz, g.nc)
  | .error _ => (0, 0, 0, 0)

/-! ### Bridging the executable floor/ceiling/truncation to Mathlib's -/

theorem ratFloor_eq (q : ℚ) : Rat.floor q = ⌊q⌋ := by
  rw [Rat.floor_def', Rat.floor_def]

theorem ratCeil_eq (q : ℚ) : Rat.ceil q = ⌈q⌉ := by
  have hf : Rat.floor q = ⌊q⌋ := ratFloor_eq q
  unfold Rat.ceil
  split
  · next h =>
    have hq : ((q.num : ℤ) : ℚ) = q := (Rat.den_eq_one_iff q).mp h
    conv_rhs => rw [← hq]
    rw [Int.ceil_intCast]
  · next h =>
    have hne : q ≠ ((⌊q⌋ : ℤ) : ℚ) := by
      intro he
      exact h (by rw [he, Rat.den_intCast])
    have hlt : (⌊q⌋ : ℚ) < q :=
      lt_of_le_of_ne (Int.floor_le q) (fun he => hne he.symm)
    have hd : (q.num / (q.den : ℤ)) = ⌊q⌋ := by rw [← Rat.floor_def', hf]
    rw [hd]
    refine (Int.ceil_eq_iff.mpr ⟨?_, ?_⟩).symm
    · push_cast
      simpa using hlt
    · push_cast
      exact le_of_lt (Int.lt_floor_add_one q)

theorem truncQ_intCast (n : ℤ) : truncQ ((n : ℤ) : ℚ) = n := by
  unfold truncQ
  split
  · rw [ratFloor_eq, Int.floor_intCast]
  · rw [ratCeil_eq, Int.ceil_intCast]

/-! ### The component-wise order and the fold computing min/max rows -/

/-- Component-wise order on coordinate vectors. -/
def vle (v w : Vec3) : Prop := v.x ≤ w.x ∧ v.y ≤ w.y ∧ v.z ≤ w.z

theorem vle_refl (v : Vec3) : vle v v := ⟨le_refl _, le_refl _, le_refl _⟩

theorem vle_trans {u v w : Vec3} (h1 : vle u v) (h2 : vle v w) : vle u w :=
  ⟨le_trans h1.1 h2.1, le_trans h1.2.1 h2.2.1, le_trans h1.2.2 h2.2.2⟩

theorem vmin_le_left (v w : Vec3) : vle (vmin v w) v :=
  ⟨min_le_left _ _, min_le_left _ _, min_le_left _ _⟩

theorem vmin_le_right (v w : Vec3) : vle (vmin v w) w :=
  ⟨min_le_right _ _, min_le_right _ _, min_le_right _ _⟩

theorem le_vmax_left (v w : Vec3) : vle v (vmax v w) :=
  ⟨le_max_left _ _, le_max_left _ _, le_max_left _ _⟩

theorem le_vmax_right (v w : Vec3) : vle w (vmax v w) :=
  ⟨le_max_right _ _, le_max_right _ _, le_max_right _ _⟩

theorem vmin_eq_left {v w : Vec3} (h : vle v w) : vmin v w = v := by
  unfold vmin
  rw [min_eq_left h.1, min_eq_left h.2.1, min_eq_left h.2.2]

theorem vmax_eq_left {v w : Vec3} (h : vle w v) : vmax v w = v := by
  unfold vmax
  rw [max_eq_left h.1, max_eq_left h.2.1, max_eq_left h.2.2]

theorem posMin_cons (hd : Vec3) (b : Atom) (tl : List Atom) :
    posMin hd (b :: tl) = posMin (vmin hd b.pos) tl := rfl

theorem posMax_cons (hd : Vec3) (b : Atom) (tl : List Atom) :
    posMax hd (b :: tl) = posMax (vmax hd b.pos) tl := rfl

theorem posMin_le_init (hd : Vec3) (tl : List Atom) : vle (posMin hd tl) hd := by
  induction tl generalizing hd with
  | nil => exact vle_refl hd
  | cons b tl ih =>
    rw [posMin_cons]
    exact vle_trans (ih (vmin hd b.pos)) (vmin_le_left hd b.pos)

theorem le_posMax_init (hd : Vec3) (tl : List Atom) : vle hd (posMax hd tl) := by
  induction tl generalizing hd with
  | nil => exact vle_refl hd
  | cons b tl ih =>
    rw [posMax_cons]
    exact vle_trans (le_vmax_left hd b.pos) (ih (vmax hd b.pos))

theorem posMin_le_mem {b : Atom} {tl : List Atom} (hd : Vec3) (hb : b ∈ tl) :
    vle (posMin hd tl) b.pos := by
  induction tl generalizing hd with
  | nil => cases hb
  | cons c tl ih =>
    rw [posMin_cons]
    rcases List.mem_cons.mp hb with he | hm
    · subst he
      exact vle_trans (posMin_le_init _ tl) (vmin_le_right hd b.pos)
    · exact ih _ hm

theorem le_posMax_mem {b : Atom} {tl : List Atom} (hd : Vec3) (hb : b ∈ tl) :
    vle b.pos (posMax hd tl) := by
  induction tl generalizing hd with
  | nil => cases hb
  | cons c tl ih =>
    rw [posMax_cons]
    rcases List.mem_cons.mp hb with he | hm
    · subst he
      exact vle_trans (le_vmax_right hd b.pos) (le_posMax_init _ tl)
    · exact ih _ hm

theorem posMin_le_posMax (hd : Vec3) (tl : List Atom) :
    vle (posMin hd tl) (posMax hd tl) :=
  vle_trans (posMin_le_init hd tl) (le_posMax_init hd tl)

theorem posMin_append_one (hd : Vec3) (tl : List Atom) (a : Atom) :
    posMin hd (tl ++ [a]) = vmin (posMin hd tl) a.pos := by
  unfold posMin
  rw [List.foldl_append]
  rfl

theorem posMax_append_one (hd : Vec3) (tl : List Atom) (a : Atom) :
    posMax hd (tl ++ [a]) = vmax (posMax hd tl) a.pos := by
  unfold posMax
  rw [List.foldl_append]
  rfl

theorem posMin_comp (f : Vec3 → ℚ) (hf : ∀ v w, f (vmin v w) = min (f v) (f w))
    (hd : Vec3) (tl : List Atom) :
    f (posMin hd tl) = (tl.map (fun b => f b.pos)).foldl min (f hd) := by
  induction tl generalizing hd with
  | nil => rfl
  | cons b tl ih =>
    rw [posMin_cons, List.map_cons, List.foldl_cons, ← hf]
    exact ih _

theorem posMax_comp (f : Vec3 → ℚ) (hf : ∀ v w, f (vmax v w) = max (f v) (f w))
    (hd : Vec3) (tl : List Atom) :
    f (posMax hd tl) = (tl.map (fun b => f b.pos)).foldl max (f hd) := by
  induction tl generalizing hd with
  | nil => rfl
  | cons b tl ih =>
    rw [posMax_cons, List.map_cons, List.foldl_cons, ← hf]
    exact ih _

/-! ### Unpacking the bounding box -/

theorem vfloor_le (v : Vec3) : vle (vfloor v) v := by
  refine ⟨?_, ?_, ?_⟩ <;>
    · show ((Rat.floor _ : ℤ) : ℚ) ≤ _
      rw [ratFloor_eq]
      exact Int.floor_le _

theorem le_vceil (v : Vec3) : vle v (vceil v) := by
  refine ⟨?_, ?_, ?_⟩ <;>
    · show _ ≤ ((Rat.ceil _ : ℤ) : ℚ)
      rw [ratCeil_eq]
      exact Int.le_ceil _

theorem bounding_box_cons (hd : Atom) (tl : List Atom) :
    bounding_box (hd :: tl) =
      .ok (vfloor (posMin hd.pos tl), vceil (posMax hd.pos tl)) := rfl

theorem bounding_box_eq {atoms : List Atom} {b0 b1 : Vec3}
    (h : bounding_box atoms = .ok (b0, b1)) :
    ∃ hd tl, atoms = hd :: tl ∧ b0 = vfloor (posMin hd.pos tl) ∧
      b1 = vceil (posMax hd.pos tl) := by
  cases atoms with
  | nil => cases h
  | cons hd tl =>
    have h2 := Except.ok.inj ((bounding_box_cons hd tl).symm.trans h)
    exact ⟨hd, tl, rfl, (congrArg Prod.fst h2).symm, (congrArg Prod.snd h2).symm⟩

theorem bounding_box_bounds {atoms : List Atom} {b0 b1 : Vec3} {a : Atom}
    (h : bounding_box atoms = .ok (b0, b1)) (ha : a ∈ atoms) :
    vle b0 a.pos ∧ vle a.pos b1 := by
  obtain ⟨hd, tl, rfl, hb0, hb1⟩ := bounding_box_eq h
  subst hb0
  subst hb1
  rcases List.mem_cons.mp ha with he | hm
  · subst he
    exact ⟨vle_trans (vfloor_le _) (posMin_le_init _ _),
      vle_trans (le_posMax_init _ _) (le_vceil _)⟩
  · exact ⟨vle_trans (vfloor_le _) (posMin_le_mem _ hm),
      vle_trans (le_posMax_mem _ hm) (le_vceil _)⟩

/-- The two corners of a computed bounding box are integral, and the lower
corner is component-wise below the upper one. -/
theorem bounding_box_corners {atoms : List Atom} {b0 b1 : Vec3}
    (h : bounding_box atoms = .ok (b0, b1)) :
    ∃ fx fy fz cx cy cz : ℤ,
      b0 = ⟨(fx : ℚ), (fy : ℚ), (fz : ℚ)⟩ ∧ b1 = ⟨(cx : ℚ), (cy : ℚ), (cz : ℚ)⟩ ∧
      fx ≤ cx ∧ fy ≤ cy ∧ fz ≤ cz := by
  obtain ⟨hd, tl, rfl, hb0, hb1⟩ := bounding_box_eq h
  subst hb0
  subst hb1
  have hm := posMin_le_posMax hd.pos tl
  refine ⟨Rat.floor (posMin hd.pos tl).x, Rat.floor (posMin hd.pos tl).y,
    Rat.floor (posMin hd.pos tl).z, Rat.ceil (posMax hd.pos tl).x,
    Rat.ceil (posMax hd.pos tl).y, Rat.ceil (posMax hd.pos tl).z,
    rfl, rfl, ?_, ?_, ?_⟩ <;>
    · rw [ratFloor_eq, ratCeil_eq]
      exact le_trans (Int.floor_le_floor (by
        first
          | exact hm.1
          | exact hm.2.1
          | exact hm.2.2)) (Int.floor_le_ceil _)

/-! ### The channel lookup -/

theorem index_of_eq_none {s : String} {l : List String} (h : s ∉ l) :
    index_of s l = none := by
  induction l with
  | nil => rfl
  | cons t rest ih =>
    have hts : ¬t = s := fun he => h (he ▸ List.mem_cons_self t rest)
    have hs : s ∉ rest := fun hm => h (List.mem_cons_of_mem t hm)
    simp [index_of, hts, ih hs]

theorem index_of_eq_some {s : String} {l : List String} (h : s ∈ l) :
    ∃ c, index_of s l = some c := by
  induction l with
  | nil => cases h
  | cons t rest ih =>
    by_cases hts : t = s
    · exact ⟨0, by simp [index_of, hts]⟩
    · rcases List.mem_cons.mp h with he | hm
      · exact absurd he.symm hts
      · obtain ⟨c, hc⟩ := ih hm
        exact ⟨c + 1, by simp [index_of, hts, hc]⟩

/-! ### Single-atom rasterization -/

theorem rasterizeAtom_unknown {b0 : Vec3} {g : VoxelGrid} {a : Atom}
    (h : index_of a.element symbols = none) :
    rasterizeAtom b0 g a = .error (.unknownElement a.element) := by
  unfold rasterizeAtom
  rw [h]

theorem rasterizeAtom_known {b0 : Vec3} {g : VoxelGrid} {a : Atom} {c : ℕ}
    (h : index_of a.element symbols = some c) :
    rasterizeAtom b0 g a =
      if inBounds g (voxelIdx b0 a.pos).ix (voxelIdx b0 a.pos).iy
          (voxelIdx b0 a.pos).iz c then
        .ok (setCell g (voxelIdx b0 a.pos).ix (voxelIdx b0 a.pos).iy
          (voxelIdx b0 a.pos).iz c)
      else
        .error .outOfBounds := by
  unfold rasterizeAtom
  rw [h]

theorem setCell_shape (g : VoxelGrid) (i j k : ℤ) (c : ℕ) :
    (setCell g i j k c).sx = g.sx ∧ (setCell g i j k c).sy = g.sy ∧
      (setCell g i j k c).sz = g.sz ∧ (setCell g i j k c).nc = g.nc :=
  ⟨rfl, rfl, rfl, rfl⟩

theorem inBounds_eq_of_shape {g g' : VoxelGrid} (hx : g'.sx = g.sx)
    (hy : g'.sy = g.sy) (hz : g'.sz = g.sz) (hn : g'.nc = g.nc)
    (i j k : ℤ) (c : ℕ) : inBounds g' i j k c = inBounds g i j k c := by
  unfold inBounds
  rw [hx, hy, hz, hn]

theorem setCell_val_self (g : VoxelGrid) (i j k : ℤ) (c : ℕ) :
    (setCell g i j k c).val i j k c = 1 := by
  simp [setCell]

theorem setCell_val_other {g : VoxelGrid} {i j k : ℤ} {c : ℕ}
    {i' j' k' : ℤ} {c' : ℕ} (h : ¬(i' = i ∧ j' = j ∧ k' = k ∧ c' = c)) :
    (setCell g i j k c).val i' j' k' c' = g.val i' j' k' c' := by
  simp only [setCell]
  rw [if_neg h]

theorem setCell_val_mono {g : VoxelGrid} {i j k : ℤ} {c : ℕ}
    {i' j' k' : ℤ} {c' : ℕ} (h : g.val i' j' k' c' = 1) :
    (setCell g i j k c).val i' j' k' c' = 1 := by
  simp only [setCell]
  split
  · rfl
  · exact h

theorem setCell_val_binary {g : VoxelGrid} {i j k : ℤ} {c : ℕ}
    {i' j' k' : ℤ} {c' : ℕ}
    (h : g.val i' j' k' c' = 0 ∨ g.val i' j' k' c' = 1) :
    (setCell g i j k c).val i' j' k' c' = 0 ∨
      (setCell g i j k c).val i' j' k' c' = 1 := by
  simp only [setCell]
  split
  · exact Or.inr rfl
  · exact h

theorem setCell_eq_self {g : VoxelGrid} {i j k : ℤ} {c : ℕ}
    (h : g.val i j k c = 1) : setCell g i j k c = g := by
  cases g with
  | mk sx sy sz nc val =>
    simp only [setCell]
    congr 1
    funext i' j' k' c'
    split
    · next hc =>
      obtain ⟨rfl, rfl, rfl, rfl⟩ := hc
      exact h.symm
    · rfl

theorem setCell_comm (g : VoxelGrid) (i j k : ℤ) (c : ℕ)
    (i' j' k' : ℤ) (c' : ℕ) :
    setCell (setCell g i j k c) i' j' k' c' =
      setCell (setCell g i' j' k' c') i j k c := by
  cases g with
  | mk sx sy sz nc val =>
    simp only [setCell]
    congr 1
    funext a b d e
    by_cases h1 : a = i ∧ b = j ∧ d = k ∧ e = c <;>
      by_cases h2 : a = i' ∧ b = j' ∧ d = k' ∧ e = c' <;>
        simp [h1, h2]

theorem rasterizeAtom_shape {b0 : Vec3} {g : VoxelGrid} {a : Atom}
    {g' : VoxelGrid} (h : rasterizeAtom b0 g a = .ok g') :
    g'.sx = g.sx ∧ g'.sy = g.sy ∧ g'.sz = g.sz ∧ g'.nc = g.nc := by
  unfold rasterizeAtom at h
  split at h
  · cases h
  · split at h
    · obtain rfl := Except.ok.inj h
      exact ⟨rfl, rfl, rfl, rfl⟩
    · cases h

theorem rasterizeAtom_val_mono {b0 : Vec3} {g : VoxelGrid} {a : Atom}
    {g' : VoxelGrid} (h : rasterizeAtom b0 g a = .ok g')
    {i j k : ℤ} {c : ℕ} (hv : g.val i j k c = 1) : g'.val i j k c = 1 := by
  unfold rasterizeAtom at h
  split at h
  · cases h
  · split at h
    · obtain rfl := Except.ok.inj h
      exact setCell_val_mono hv
    · cases h

theorem rasterizeAtom_val_binary {b0 : Vec3} {g : VoxelGrid} {a : Atom}
    {g' : VoxelGrid} (h : rasterizeAtom b0 g a = .ok g')
    {i j k : ℤ} {c : ℕ}
    (hv : g.val i j k c = 0 ∨ g.val i j k c = 1) :
    g'.val i j k c = 0 ∨ g'.val i j k c = 1 := by
  unfold rasterizeAtom at h
  split at h
  · cases h
  · split at h
    · obtain rfl := Except.ok.inj h
      exact setCell_val_binary hv
    · cases h

/-! ### The rasterization loop -/

theorem rasterizeList_nil (b0 : Vec3) (g : VoxelGrid) :
    rasterizeList b0 g [] = .ok g := rfl

theorem rasterizeList_cons (b0 : Vec3) (g : VoxelGrid) (a : Atom)
    (l : List Atom) :
    rasterizeList b0 g (a :: l) =
      match rasterizeAtom b0 g a with
      | .ok g' => rasterizeList b0 g' l
      | .error e => .error e := rfl

theorem rasterizeList_append (b0 : Vec3) (g : VoxelGrid) (l l' : List Atom) :
    rasterizeList b0 g (l ++ l') =
      match rasterizeList b0 g l with
      | .ok g2 => rasterizeList b0 g2 l'
      | .error e => .error e := by
  induction l generalizing g with
  | nil => rfl
  | cons a l ih =>
    show rasterizeList b0 g (a :: (l ++ l')) = _
    rw [rasterizeList_cons, rasterizeList_cons]
    cases hra : rasterizeAtom b0 g a with
    | ok g2 => exact ih g2
    | error e => rfl

theorem rasterizeList_shape {b0 : Vec3} {g : VoxelGrid} {l : List Atom}
    {g' : VoxelGrid} (h : rasterizeList b0 g l = .ok g') :
    g'.sx = g.sx ∧ g'.sy = g.sy ∧ g'.sz = g.sz ∧ g'.nc = g.nc := by
  induction l generalizing g with
  | nil =>
    obtain rfl := Except.ok.inj h
    exact ⟨rfl, rfl, rfl, rfl⟩
  | cons a l ih =>
    rw [rasterizeList_cons] at h
    cases hra : rasterizeAtom b0 g a with
    | ok g2 =>
      rw [hra] at h
      obtain ⟨x1, y1, z1, n1⟩ := ih h
      obtain ⟨x2, y2, z2, n2⟩ := rasterizeAtom_shape hra
      exact ⟨x1.trans x2, y1.trans y2, z1.trans z2, n1.trans n2⟩
    | error e =>
      rw [hra] at h
      cases h

theorem rasterizeList_val_mono {b0 : Vec3} {g : VoxelGrid} {l : List Atom}
    {g' : VoxelGrid} (h : rasterizeList b0 g l = .ok g')
    {i j k : ℤ} {c : ℕ} (hv : g.val i j k c = 1) : g'.val i j k c = 1 := by
  induction l generalizing g with
  | nil =>
    obtain rfl := Except.ok.inj h
    exact hv
  | cons a l ih =>
    rw [rasterizeList_cons] at h
    cases hra : rasterizeAtom b0 g a with
    | ok g2 =>
      rw [hra] at h
      exact ih h (rasterizeAtom_val_mono hra hv)
    | error e =>
      rw [hra] at h
      cases h

theorem rasterizeList_val_binary {b0 : Vec3} {g : VoxelGrid} {l : List Atom}
    {g' : VoxelGrid} (h : rasterizeList b0 g l = .ok g')
    {i j k : ℤ} {c : ℕ}
    (hv : g.val i j k c = 0 ∨ g.val i j k c = 1) :
    g'.val i j k c = 0 ∨ g'.val i j k c = 1 := by
  induction l generalizing g with
  | nil =>
    obtain rfl := Except.ok.inj h
    exact hv
  | cons a l ih =>
    rw [rasterizeList_cons] at h
    cases hra : rasterizeAtom b0 g a with
    | ok g2 =>
      rw [hra] at h
      exact ih h (rasterizeAtom_val_binary hra hv)
    | error e =>
      rw [hra] at h
      cases h

/-- Every atom of a successfully rasterized list has a known element, was
written in bounds, and its cell carries 1 in the final grid. -/
theorem rasterizeList_mem_processed {b0 : Vec3} {g : VoxelGrid}
    {l : List Atom} {g' : VoxelGrid} (h : rasterizeList b0 g l = .ok g')
    {a : Atom} (ha : a ∈ l) :
    ∃ c, index_of a.element symbols = some c ∧
      inBounds g' (voxelIdx b0 a.pos).ix (voxelIdx b0 a.pos).iy
        (voxelIdx b0 a.pos).iz c = true ∧
      g'.val (voxelIdx b0 a.pos).ix (voxelIdx b0 a.pos).iy
        (voxelIdx b0 a.pos).iz c = 1 := by
  induction l generalizing g with
  | nil => cases ha
  | cons b l ih =>
    rw [rasterizeList_cons] at h
    cases hra : rasterizeAtom b0 g b with
    | error e =>
      rw [hra] at h
      cases h
    | ok g2 =>
      rw [hra] at h
      rcases List.mem_cons.mp ha with he | hm
      · subst he
        cases hc : index_of a.element symbols with
        | none =>
          rw [rasterizeAtom_unknown hc] at hra
          cases hra
        | some c =>
          rw [rasterizeAtom_known hc] at hra
          split at hra
          · next hb =>
            obtain rfl := Except.ok.inj hra
            refine ⟨c, rfl, ?_, ?_⟩
            · obtain ⟨x1, y1, z1, n1⟩ := rasterizeList_shape h
              rw [inBounds_eq_of_shape x1 y1 z1 n1,
                inBounds_eq_of_shape (setCell_shape g _ _ _ _).1
                  (setCell_shape g _ _ _ _).2.1 (setCell_shape g _ _ _ _).2.2.1
                  (setCell_shape g _ _ _ _).2.2.2]
              exact hb
            · exact rasterizeList_val_mono h (setCell_val_self g _ _ _ _)
          · next => cases hra
      · exact ih h hm

/-! ### Duplicating an atom -/

theorem bounding_box_append_self {atoms : List Atom} {a : Atom}
    (ha : a ∈ atoms) : bounding_box (atoms ++ [a]) = bounding_box atoms := by
  cases atoms with
  | nil => cases ha
  | cons hd tl =>
    show bounding_box (hd :: (tl ++ [a])) = _
    rw [bounding_box_cons, bounding_box_cons, posMin_append_one,
      posMax_append_one]
    rcases List.mem_cons.mp ha with he | hm
    · subst he
      rw [vmin_eq_left (vle_trans (posMin_le_init _ _) (vle_refl _)),
        vmax_eq_left (vle_trans (vle_refl _) (le_posMax_init _ _))]
    · rw [vmin_eq_left (posMin_le_mem _ hm), vmax_eq_left (le_posMax_mem _ hm)]

/-! ### Commuting two successive atom writes -/

theorem rasterizeAtom_error_shape {b0 : Vec3} {g : VoxelGrid} {a : Atom}
    {c : ℕ} (hc : index_of a.element symbols = some c)
    {g' : VoxelGrid} (hsx : g'.sx = g.sx) (hsy : g'.sy = g.sy)
    (hsz : g'.sz = g.sz) (hnc : g'.nc = g.nc)
    (he : rasterizeAtom b0 g a = .error .outOfBounds) :
    rasterizeAtom b0 g' a = .error .outOfBounds := by
  rw [rasterizeAtom_known hc] at he ⊢
  rw [inBounds_eq_of_shape hsx hsy hsz hnc]
  split at he
  · cases he
  · next hb => rw [if_neg hb]

theorem rasterizeAtom_only_out_of_bounds {b0 : Vec3} {g : VoxelGrid}
    {a : Atom} {c : ℕ} (hc : index_of a.element symbols = some c)
    {e : VoxError} (he : rasterizeAtom b0 g a = .error e) :
    e = .outOfBounds := by
  rw [rasterizeAtom_known hc] at he
  split at he
  · cases he
  · exact (Except.error.inj he).symm

theorem rasterizeAtom_comm {b0 : Vec3} {g : VoxelGrid} {x y : Atom}
    (hx : x.element ∈ symbols) (hy : y.element ∈ symbols) :
    (match rasterizeAtom b0 g x with
     | .ok g1 => rasterizeAtom b0 g1 y
     | .error e => .error e) =
    (match rasterizeAtom b0 g y with
     | .ok g1 => rasterizeAtom b0 g1 x
     | .error e => .error e) := by
  obtain ⟨cx, hcx⟩ := index_of_eq_some hx
  obtain ⟨cy, hcy⟩ := index_of_eq_some hy
  rw [rasterizeAtom_known hcx, rasterizeAtom_known hcy]
  by_cases hbx : inBounds g (voxelIdx b0 x.pos).ix (voxelIdx b0 x.pos).iy
      (voxelIdx b0 x.pos).iz cx = true <;>
    by_cases hby : inBounds g (voxelIdx b0 y.pos).ix (voxelIdx b0 y.pos).iy
        (voxelIdx b0 y.pos).iz cy = true
  · rw [if_pos hbx, if_pos hby]
    show rasterizeAtom b0 (setCell g _ _ _ _) y =
      rasterizeAtom b0 (setCell g _ _ _ _) x
    rw [rasterizeAtom_known hcx, rasterizeAtom_known hcy]
    rw [inBounds_eq_of_shape (setCell_shape g _ _ _ _).1
      (setCell_shape g _ _ _ _).2.1 (setCell_shape g _ _ _ _).2.2.1
      (setCell_shape g _ _ _ _).2.2.2,
      inBounds_eq_of_shape (setCell_shape g _ _ _ _).1
      (setCell_shape g _ _ _ _).2.1 (setCell_shape g _ _ _ _).2.2.1
      (setCell_shape g _ _ _ _).2.2.2]
    rw [if_pos hbx, if_pos hby]
    rw [setCell_comm]
  · rw [if_pos hbx, if_neg (by simpa using hby)]
    show rasterizeAtom b0 (setCell g _ _ _ _) y = .error .outOfBounds
    rw [rasterizeAtom_known hcy,
      inBounds_eq_of_shape (setCell_shape g _ _ _ _).1
      (setCell_shape g _ _ _ _).2.1 (setCell_shape g _ _ _ _).2.2.1
      (setCell_shape g _ _ _ _).2.2.2]
    rw [if_neg (by simpa using hby)]
  · rw [if_neg (by simpa using hbx), if_pos hby]
    show (Except.error VoxError.outOfBounds : Except VoxError VoxelGrid) =
      rasterizeAtom b0 (setCell g _ _ _ _) x
    rw [rasterizeAtom_known hcx,
      inBounds_eq_of_shape (setCell_shape g _ _ _ _).1
      (setCell_shape g _ _ _ _).2.1 (setCell_shape g _ _ _ _).2.2.1
      (setCell_shape g _ _ _ _).2.2.2]
    rw [if_neg (by simpa using hbx)]
  · rw [if_neg (by simpa using hbx), if_neg (by simpa using hby)]

theorem rasterizeList_cons_cons (b0 : Vec3) (g : VoxelGrid) (x y : Atom)
    (l : List Atom) :
    rasterizeList b0 g (x :: y :: l) =
      match (match rasterizeAtom b0 g x with
             | .ok g1 => rasterizeAtom b0 g1 y
             | .error e => .error e) with
      | .ok g2 => rasterizeList b0 g2 l
      | .error e => .error e := by
  rw [rasterizeList_cons]
  cases hx : rasterizeAtom b0 g x with
  | error e => rfl
  | ok g1 =>
    dsimp only
    rw [rasterizeList_cons]

/-! ### `voxelize`-level helpers -/

theorem voxelize_eq {atoms : List Atom} {b0 b1 : Vec3}
    (h : bounding_box atoms = .ok (b0, b1)) :
    voxelize atoms = rasterizeList b0 (allocate_grid b0 b1) atoms := by
  unfold voxelize
  rw [h]

theorem allocate_grid_val (b0 b1 : Vec3) (i j k : ℤ) (c : ℕ) :
    (allocate_grid b0 b1).val i j k c = 0 := rfl

theorem voxelize_ok_binary {atoms : List Atom} {g' : VoxelGrid}
    (h : voxelize atoms = .ok g') (i j k : ℤ) (c : ℕ) :
    g'.val i j k c = 0 ∨ g'.val i j k c = 1 := by
  unfold voxelize at h
  cases hbb : bounding_box atoms with
  | error e =>
    rw [hbb] at h
    cases h
  | ok bb =>
    obtain ⟨b0, b1⟩ := bb
    rw [hbb] at h
    exact rasterizeList_val_binary h (Or.inl rfl)

/-! ### Scalar helpers for the per-axis index bounds -/

theorem truncQ_cast_sub (a b : ℤ) : truncQ ((a : ℚ) - (b : ℚ)) = a - b := by
  rw [show ((a : ℚ) - (b : ℚ)) = ((a - b : ℤ) : ℚ) by push_cast; ring,
    truncQ_intCast]

theorem idx_axis_bounds {p : ℚ} {f c : ℤ} (hl : (f : ℚ) ≤ p) :
    0 ≤ ⌊p - (f : ℚ)⌋ ∧ (⌊p - (f : ℚ)⌋ < c - f ↔ p < (c : ℚ)) := by
  constructor
  · exact Int.floor_nonneg.mpr (by linarith)
  · rw [Int.floor_sub_int]
    constructor
    · intro hlt
      exact Int.floor_lt.mp (by omega)
    · intro hlt
      have := Int.floor_lt.mpr hlt
      omega

/-! ## The claims -/

/-- Witness inputs reused across concrete instantiations. -/
def wAtom : Atom := ⟨⟨mkRat 1 2, mkRat 1 2, mkRat 1 2⟩, "C"⟩

/-- A second witness atom, with a different element and fractional position. -/
def wAtomN : Atom := ⟨⟨mkRat 9 5, mkRat 11 10, mkRat 9 10⟩, "N"⟩

/-- An atom whose element is outside the alphabet. -/
def wAtomP : Atom := ⟨⟨0, 0, 0⟩, "P"⟩

/-- C3: for every non-empty atom list, `bounding_box` returns the box whose
lower corner is the component-wise floor of the component-wise minimum of
the atom positions and whose upper corner is the component-wise ceiling of
the component-wise maximum; both corners are integral (casts of the integer
floors and ceilings). -/
theorem bounding_box_floor_min_ceil_max (atoms : List Atom)
    (h : atoms ≠ []) :
    ∃ b0 b1 mx my mz Mx My Mz,
      (atoms.map fun a => a.pos.x).min? = some mx ∧
      (atoms.map fun a => a.pos.y).min? = some my ∧
      (atoms.map fun a => a.pos.z).min? = some mz ∧
      (atoms.map fun a => a.pos.x).max? = some Mx ∧
      (atoms.map fun a => a.pos.y).max? = some My ∧
      (atoms.map fun a => a.pos.z).max? = some Mz ∧
      bounding_box atoms = .ok (b0, b1) ∧
      b0 = ⟨(⌊mx⌋ : ℚ), (⌊my⌋ : ℚ), (⌊mz⌋ : ℚ)⟩ ∧
      b1 = ⟨(⌈Mx⌉ : ℚ), (⌈My⌉ : ℚ), (⌈Mz⌉ : ℚ)⟩ := by
  cases atoms with
  | nil => exact absurd rfl h
  | cons hd tl =>
    refine ⟨vfloor (posMin hd.pos tl), vceil (posMax hd.pos tl),
      (posMin hd.pos tl).x, (posMin hd.pos tl).y, (posMin hd.pos tl).z,
      (posMax hd.pos tl).x, (posMax hd.pos tl).y, (posMax hd.pos tl).z,
      ?_, ?_, ?_, ?_, ?_, ?_, bounding_box_cons hd tl, ?_, ?_⟩
    · exact congrArg some
        (posMin_comp (fun v => v.x) (fun _ _ => rfl) hd.pos tl).symm
    · exact congrArg some
        (posMin_comp (fun v => v.y) (fun _ _ => rfl) hd.pos tl).symm
    · exact congrArg some
        (posMin_comp (fun v => v.z) (fun _ _ => rfl) hd.pos tl).symm
    · exact congrArg some
        (posMax_comp (fun v => v.x) (fun _ _ => rfl) hd.pos tl).symm
    · exact congrArg some
        (posMax_comp (fun v => v.y) (fun _ _ => rfl) hd.pos tl).symm
    · exact congrArg some
        (posMax_comp (fun v => v.z) (fun _ _ => rfl) hd.pos tl).symm
    · unfold vfloor
      rw [ratFloor_eq, ratFloor_eq, ratFloor_eq]
    · unfold vceil
      rw [ratCeil_eq, ratCeil_eq, ratCeil_eq]

/-- C3 witness: the characterization instantiated on two concrete atoms. -/
theorem bounding_box_floor_min_ceil_max_witness :
    ∃ b0 b1 mx my mz Mx My Mz,
      ([wAtom, wAtomN].map fun a => a.pos.x).min? = some mx ∧
      ([wAtom, wAtomN].map fun a => a.pos.y).min? = some my ∧
      ([wAtom, wAtomN].map fun a => a.pos.z).min? = some mz ∧
      ([wAtom, wAtomN].map fun a => a.pos.x).max? = some Mx ∧
      ([wAtom, wAtomN].map fun a => a.pos.y).max? = some My ∧
      ([wAtom, wAtomN].map fun a => a.pos.z).max? = some Mz ∧
      bounding_box [wAtom, wAtomN] = .ok (b0, b1) ∧
      b0 = ⟨(⌊mx⌋ : ℚ), (⌊my⌋ : ℚ), (⌊mz⌋ : ℚ)⟩ ∧
      b1 = ⟨(⌈Mx⌉ : ℚ), (⌈My⌉ : ℚ), (⌈Mz⌉ : ℚ)⟩ :=
  bounding_box_floor_min_ceil_max [wAtom, wAtomN] (List.cons_ne_nil _ _)

/-- C8: `bounding_box` fails (with the empty-input error) exactly on the
empty atom list, and succeeds on every non-empty list. -/
theorem bounding_box_empty_iff (atoms : List Atom) :
    (bounding_box atoms = .error .emptyInput ↔ atoms = []) ∧
    (atoms ≠ [] → ∃ b0 b1, bounding_box atoms = .ok (b0, b1)) := by
  cases atoms with
  | nil => exact ⟨⟨fun _ => rfl, fun _ => rfl⟩, fun hne => absurd rfl hne⟩
  | cons hd tl =>
    refine ⟨⟨fun he => ?_, fun he => ?_⟩,
      fun _ => ⟨_, _, bounding_box_cons hd tl⟩⟩
    · rw [bounding_box_cons] at he
      cases he
    · cases he

/-- C8 witness: the two directions on concrete inputs. -/
theorem bounding_box_empty_iff_witness :
    bounding_box [] = .error .emptyInput ∧
    ∃ b0 b1, bounding_box [wAtom] = .ok (b0, b1) :=
  ⟨(bounding_box_empty_iff []).1.mpr rfl,
   (bounding_box_empty_iff [wAtom]).2 (List.cons_ne_nil _ _)⟩

/-- C4: for a box returned by `bounding_box` (voxel size 1), the allocated
grid is zero-initialized, its spatial shape along each axis equals
`⌈box.max⌉ - ⌊box.min⌋` on that axis (a non-negative integer), and its
channel axis has length `symbols.length`. -/
theorem allocate_grid_shape {atoms : List Atom} {b0 b1 : Vec3}
    (h : bounding_box atoms = .ok (b0, b1)) :
    (allocate_grid b0 b1).sx = ⌈b1.x⌉ - ⌊b0.x⌋ ∧
    (allocate_grid b0 b1).sy = ⌈b1.y⌉ - ⌊b0.y⌋ ∧
    (allocate_grid b0 b1).sz = ⌈b1.z⌉ - ⌊b0.z⌋ ∧
    0 ≤ (allocate_grid b0 b1).sx ∧ 0 ≤ (allocate_grid b0 b1).sy ∧
    0 ≤ (allocate_grid b0 b1).sz ∧
    (allocate_grid b0 b1).nc = symbols.length ∧
    ∀ i j k c, (allocate_grid b0 b1).val i j k c = 0 := by
  obtain ⟨fx, fy, fz, cx, cy, cz, hb0, hb1, hxc, hyc, hzc⟩ :=
    bounding_box_corners h
  subst hb0
  subst hb1
  refine ⟨?_, ?_, ?_, ?_, ?_, ?_, rfl, fun i j k c => rfl⟩
  · show truncQ ((cx : ℚ) - (fx : ℚ)) = ⌈((cx : ℤ) : ℚ)⌉ - ⌊((fx : ℤ) : ℚ)⌋
    rw [truncQ_cast_sub, Int.ceil_intCast, Int.floor_intCast]
  · show truncQ ((cy : ℚ) - (fy : ℚ)) = ⌈((cy : ℤ) : ℚ)⌉ - ⌊((fy : ℤ) : ℚ)⌋
    rw [truncQ_cast_sub, Int.ceil_intCast, Int.floor_intCast]
  · show truncQ ((cz : ℚ) - (fz : ℚ)) = ⌈((cz : ℤ) : ℚ)⌉ - ⌊((fz : ℤ) : ℚ)⌋
    rw [truncQ_cast_sub, Int.ceil_intCast, Int.floor_intCast]
  · show 0 ≤ truncQ ((cx : ℚ) - (fx : ℚ))
    rw [truncQ_cast_sub]
    omega
  · show 0 ≤ truncQ ((cy : ℚ) - (fy : ℚ))
    rw [truncQ_cast_sub]
    omega
  · show 0 ≤ truncQ ((cz : ℚ) - (fz : ℚ))
    rw [truncQ_cast_sub]
    omega

/-- C4 witness: the shape facts on a concrete box computed from one atom. -/
theorem allocate_grid_shape_witness :
    (allocate_grid ⟨0, 0, 0⟩ ⟨1, 1, 1⟩).sx =
      ⌈(⟨1, 1, 1⟩ : Vec3).x⌉ - ⌊(⟨0, 0, 0⟩ : Vec3).x⌋ ∧
    0 ≤ (allocate_grid ⟨0, 0, 0⟩ ⟨1, 1, 1⟩).sx ∧
    (allocate_grid ⟨0, 0, 0⟩ ⟨1, 1, 1⟩).nc = symbols.length := by
  have h : bounding_box [wAtom] = .ok (⟨0, 0, 0⟩, ⟨1, 1, 1⟩) := by
    with_unfolding_all decide
  exact ⟨(allocate_grid_shape h).1, (allocate_grid_shape h).2.2.2.1,
    (allocate_grid_shape h).2.2.2.2.2.2.1⟩

/-- C1 (amended): over a box computed from the same atoms (voxel size 1),
every atom's voxel index is ≥ 0 on every axis, and it is `< box_size` on an
axis exactly when the atom's coordinate is strictly below the box's upper
corner on that axis; the coordinate never exceeds that corner.  An atom
whose coordinate equals the (integral) upper corner — which happens exactly
when the component-wise maximum is itself an integer — gets index equal to
`box_size`, which is out of bounds, so the out-of-bounds error branch is
reachable in that edge case. -/
theorem atom_index_bounds {atoms : List Atom} {b0 b1 : Vec3} {a : Atom}
    (h : bounding_box atoms = .ok (b0, b1)) (ha : a ∈ atoms) :
    (0 ≤ (voxelIdx b0 a.pos).ix ∧ 0 ≤ (voxelIdx b0 a.pos).iy ∧
      0 ≤ (voxelIdx b0 a.pos).iz) ∧
    ((voxelIdx b0 a.pos).ix < (allocate_grid b0 b1).sx ↔ a.pos.x < b1.x) ∧
    ((voxelIdx b0 a.pos).iy < (allocate_grid b0 b1).sy ↔ a.pos.y < b1.y) ∧
    ((voxelIdx b0 a.pos).iz < (allocate_grid b0 b1).sz ↔ a.pos.z < b1.z) ∧
    (a.pos.x ≤ b1.x ∧ a.pos.y ≤ b1.y ∧ a.pos.z ≤ b1.z) := by
  obtain ⟨hle0, hle1⟩ := bounding_box_bounds h ha
  obtain ⟨fx, fy, fz, cx, cy, cz, hb0, hb1, hxc, hyc, hzc⟩ :=
    bounding_box_corners h
  subst hb0
  subst hb1
  simp only [voxelIdx, allocate_grid, ratFloor_eq, truncQ_cast_sub]
  exact ⟨⟨(idx_axis_bounds (c := cx) hle0.1).1,
      (idx_axis_bounds (c := cy) hle0.2.1).1,
      (idx_axis_bounds (c := cz) hle0.2.2).1⟩,
    (idx_axis_bounds (c := cx) hle0.1).2,
    (idx_axis_bounds (c := cy) hle0.2.1).2,
    (idx_axis_bounds (c := cz) hle0.2.2).2, hle1.1, hle1.2.1, hle1.2.2⟩

/-- C1 witness: the amended bounds at a concrete one-atom input. -/
theorem atom_index_bounds_witness :
    0 ≤ (voxelIdx ⟨0, 0, 0⟩ wAtom.pos).ix ∧
    ((voxelIdx ⟨0, 0, 0⟩ wAtom.pos).ix <
        (allocate_grid ⟨0, 0, 0⟩ ⟨1, 1, 1⟩).sx ↔
      wAtom.pos.x < (⟨1, 1, 1⟩ : Vec3).x) := by
  have h : bounding_box [wAtom] = .ok (⟨0, 0, 0⟩, ⟨1, 1, 1⟩) := by
    with_unfolding_all decide
  have hm : wAtom ∈ [wAtom] := List.mem_singleton.mpr rfl
  exact ⟨(atom_index_bounds h hm).1.1, (atom_index_bounds h hm).2.1⟩

/-- C1 counterexample: with atoms at `(0,0,0)` and `(2,2,2)` the
component-wise maximum is the integer 2, the box is `[0,2]³` with
`box_size = (2,2,2)`, and the second atom's voxel index equals `box_size`
on every axis, so the write is out of bounds and the whole pipeline fails —
refuting the claim that the out-of-bounds branch is unreachable for an atom
sitting at the exact integer maximum. -/
theorem integer_max_out_of_bounds :
    bounding_box [⟨⟨0, 0, 0⟩, "C"⟩, ⟨⟨2, 2, 2⟩, "N"⟩] =
      .ok (⟨0, 0, 0⟩, ⟨2, 2, 2⟩) ∧
    (voxelIdx ⟨0, 0, 0⟩ ⟨2, 2, 2⟩).ix = (allocate_grid ⟨0, 0, 0⟩ ⟨2, 2, 2⟩).sx ∧
    errOf (voxelize [⟨⟨0, 0, 0⟩, "C"⟩, ⟨⟨2, 2, 2⟩, "N"⟩]) =
      some .outOfBounds := by
  with_unfolding_all decide

/-- The two atoms of the spec's worked scenario. -/
def atomsC2 : List Atom :=
  [⟨⟨0.2, 0.3, 0.1⟩, "C"⟩, ⟨⟨1.8, 1.1, 0.9⟩, "N"⟩]

/-- C2: on the scenario atoms with alphabet `[C,N,O,S]` the pipeline yields
box `min = (0,0,0)`, `max = (2,2,1)`, a grid of shape `(2,2,1,4)` with
`grid[0,0,0,0] = 1`, `grid[1,1,0,1] = 1`, and every other cell 0. -/
theorem scenario_two_atoms :
    bounding_box atomsC2 = .ok (⟨0, 0, 0⟩, ⟨2, 2, 1⟩) ∧
    gridShape (voxelize atomsC2) = (2, 2, 1, 4) ∧
    gridVal (voxelize atomsC2) 0 0 0 0 = 1 ∧
    gridVal (voxelize atomsC2) 1 1 0 1 = 1 ∧
    (∀ i : ℕ, i < 2 → ∀ j : ℕ, j < 2 → ∀ k : ℕ, k < 1 → ∀ c : ℕ, c < 4 →
      (i = 0 ∧ j = 0 ∧ k = 0 ∧ c = 0) ∨ (i = 1 ∧ j = 1 ∧ k = 0 ∧ c = 1) ∨
      gridVal (voxelize atomsC2) (i : ℤ) (j : ℤ) (k : ℤ) c = 0) := by
  refine ⟨by with_unfolding_all decide, by with_unfolding_all decide,
    by with_unfolding_all decide, by with_unfolding_all decide, ?_⟩
  intro i hi j hj k hk c hc
  interval_cases i <;> interval_cases j <;> interval_cases k <;>
    interval_cases c <;> with_unfolding_all decide

/-- C5: a successful single-atom write sets the atom's cell in its element's
channel to 1 and leaves every other cell unchanged — in particular every
cell of every other channel. -/
theorem rasterizeAtom_writes_one_cell {b0 : Vec3} {g : VoxelGrid} {a : Atom}
    {c : ℕ} (hc : index_of a.element symbols = some c)
    (hok : (rasterizeAtom b0 g a).isOk = true) :
    gridVal (rasterizeAtom b0 g a) (voxelIdx b0 a.pos).ix
      (voxelIdx b0 a.pos).iy (voxelIdx b0 a.pos).iz c = 1 ∧
    (∀ i j k ch, ¬(i = (voxelIdx b0 a.pos).ix ∧ j = (voxelIdx b0 a.pos).iy ∧
        k = (voxelIdx b0 a.pos).iz ∧ ch = c) →
      gridVal (rasterizeAtom b0 g a) i j k ch = g.val i j k ch) ∧
    (∀ i j k ch, ch ≠ c →
      gridVal (rasterizeAtom b0 g a) i j k ch = g.val i j k ch) := by
  rw [rasterizeAtom_known hc] at hok ⊢
  split at hok
  · next hb =>
    rw [if_pos hb]
    refine ⟨setCell_val_self g _ _ _ _, fun i j k ch hne => ?_,
      fun i j k ch hne => ?_⟩
    · exact setCell_val_other hne
    · exact setCell_val_other (fun hcon => hne hcon.2.2.2)
  · next => exact Bool.noConfusion hok

/-- C5 witness: the write at a concrete atom over a concrete box. -/
theorem rasterizeAtom_writes_one_cell_witness :
    gridVal (rasterizeAtom ⟨0, 0, 0⟩ (allocate_grid ⟨0, 0, 0⟩ ⟨1, 1, 1⟩) wAtom)
      (voxelIdx ⟨0, 0, 0⟩ wAtom.pos).ix (voxelIdx ⟨0, 0, 0⟩ wAtom.pos).iy
      (voxelIdx ⟨0, 0, 0⟩ wAtom.pos).iz 0 = 1 ∧
    gridVal (rasterizeAtom ⟨0, 0, 0⟩ (allocate_grid ⟨0, 0, 0⟩ ⟨1, 1, 1⟩) wAtom)
      0 0 0 3 = (allocate_grid ⟨0, 0, 0⟩ ⟨1, 1, 1⟩).val 0 0 0 3 :=
  ⟨(rasterizeAtom_writes_one_cell (c := 0) (by decide)
      (by with_unfolding_all decide)).1,
   (rasterizeAtom_writes_one_cell (c := 0) (by decide)
      (by with_unfolding_all decide)).2.2 0 0 0 3 (by decide)⟩

/-- C6: voxelizing `atoms` with a duplicate of one of its atoms appended
yields exactly the same result as voxelizing `atoms` alone, and the cells
of a successful result stay binary (no double counting). -/
theorem voxelize_duplicate_atom {atoms : List Atom} {a : Atom}
    (ha : a ∈ atoms) :
    voxelize (atoms ++ [a]) = voxelize atoms ∧
    ∀ g', voxelize (atoms ++ [a]) = .ok g' →
      ∀ i j k c, g'.val i j k c = 0 ∨ g'.val i j k c = 1 := by
  refine ⟨?_, fun g' hg i j k c => voxelize_ok_binary hg i j k c⟩
  unfold voxelize
  rw [bounding_box_append_self ha]
  cases hbb : bounding_box atoms with
  | error e => rfl
  | ok bb =>
    obtain ⟨b0, b1⟩ := bb
    dsimp only
    rw [rasterizeList_append]
    cases hr : rasterizeList b0 (allocate_grid b0 b1) atoms with
    | error e => rfl
    | ok g2 =>
      dsimp only
      obtain ⟨c, hc, hib, hv⟩ := rasterizeList_mem_processed hr ha
      rw [rasterizeList_cons, rasterizeAtom_known hc, if_pos hib]
      dsimp only
      rw [rasterizeList_nil, setCell_eq_self hv]

/-- C6 witness: duplicating a concrete atom leaves the result unchanged. -/
theorem voxelize_duplicate_atom_witness :
    voxelize ([wAtom] ++ [wAtom]) = voxelize [wAtom] :=
  (voxelize_duplicate_atom (List.mem_singleton.mpr rfl)).1

/-- C7: an atom whose symbol is not in the alphabet makes the write fail
with `unknownElement` carrying that symbol (the atom is neither dropped nor
mapped to a default channel); an atom whose symbol is in the alphabet never
produces an `unknownElement` failure. -/
theorem unknown_element_error (b0 : Vec3) (g : VoxelGrid) (a : Atom) :
    (a.element ∉ symbols →
      rasterizeAtom b0 g a = .error (.unknownElement a.element)) ∧
    (a.element ∈ symbols →
      ∀ s, rasterizeAtom b0 g a ≠ .error (.unknownElement s)) := by
  constructor
  · intro h
    exact rasterizeAtom_unknown (index_of_eq_none h)
  · intro h s he
    obtain ⟨c, hc⟩ := index_of_eq_some h
    cases rasterizeAtom_only_out_of_bounds hc he

/-- C7 witness: a phosphorus atom fails with the unknown-element error; a
carbon atom never does. -/
theorem unknown_element_error_witness :
    rasterizeAtom ⟨0, 0, 0⟩ (allocate_grid ⟨0, 0, 0⟩ ⟨1, 1, 1⟩) wAtomP =
      .error (.unknownElement "P") ∧
    rasterizeAtom ⟨0, 0, 0⟩ (allocate_grid ⟨0, 0, 0⟩ ⟨1, 1, 1⟩) wAtom ≠
      .error (.unknownElement "P") :=
  ⟨(unknown_element_error _ _ wAtomP).1 (by decide),
   (unknown_element_error _ _ wAtom).2 (by decide) "P"⟩

/-- C9: over the same box and grid, rasterizing any permutation of an atom
list whose elements are all in the alphabet yields the identical result. -/
theorem rasterizeList_perm (b0 : Vec3) {l l2 : List Atom} (hp : l.Perm l2) :
    (∀ a ∈ l, a.element ∈ symbols) →
    ∀ g : VoxelGrid, rasterizeList b0 g l = rasterizeList b0 g l2 := by
  induction hp with
  | nil => exact fun _ _ => rfl
  | cons x hp ih =>
    intro hel g
    rw [rasterizeList_cons, rasterizeList_cons]
    cases hx : rasterizeAtom b0 g x with
    | error e => rfl
    | ok g1 =>
      dsimp only
      exact ih (fun a ha => hel a (List.mem_cons_of_mem x ha)) g1
  | swap x y l =>
    intro hel g
    rw [rasterizeList_cons_cons, rasterizeList_cons_cons,
      rasterizeAtom_comm (hel y (List.mem_cons_self y _))
        (hel x (List.mem_cons_of_mem y (List.mem_cons_self x _)))]
  | trans hp1 hp2 ih1 ih2 =>
    intro hel g
    exact (ih1 hel g).trans
      (ih2 (fun a ha => hel a (hp1.mem_iff.mpr ha)) g)

/-- C9 witness: swapping two concrete atoms leaves the result unchanged. -/
theorem rasterizeList_perm_witness :
    rasterizeList ⟨0, 0, 0⟩ (allocate_grid ⟨0, 0, 0⟩ ⟨2, 2, 1⟩)
        [wAtom, wAtomN] =
      rasterizeList ⟨0, 0, 0⟩ (allocate_grid ⟨0, 0, 0⟩ ⟨2, 2, 1⟩)
        [wAtomN, wAtom] :=
  rasterizeList_perm ⟨0, 0, 0⟩ (List.Perm.swap wAtomN wAtom [])
    (by decide) (allocate_grid ⟨0, 0, 0⟩ ⟨2, 2, 1⟩)

/-- C10: starting from a grid whose cells are all 0 or 1 (such as the
all-zero allocated grid), a successful rasterization keeps every cell 0 or
1, and never turns a 1 back into a 0. -/
theorem grid_monotone_binary {b0 : Vec3} {g : VoxelGrid} {l : List Atom}
    (hok : (rasterizeList b0 g l).isOk = true)
    (hbin : ∀ i j k c, g.val i j k c = 0 ∨ g.val i j k c = 1) :
    ∀ i j k c,
      (gridVal (rasterizeList b0 g l) i j k c = 0 ∨
        gridVal (rasterizeList b0 g l) i j k c = 1) ∧
      (g.val i j k c = 1 → gridVal (rasterizeList b0 g l) i j k c = 1) := by
  intro i j k c
  cases hr : rasterizeList b0 g l with
  | error e =>
    rw [hr] at hok
    exact Bool.noConfusion hok
  | ok g2 =>
    exact ⟨rasterizeList_val_binary hr (hbin i j k c),
      fun hv => rasterizeList_val_mono hr hv⟩

/-- C10 witness: the invariant at a concrete cell after one concrete run
from the all-zero grid. -/
theorem grid_monotone_binary_witness :
    (gridVal (rasterizeList ⟨0, 0, 0⟩ (allocate_grid ⟨0, 0, 0⟩ ⟨1, 1, 1⟩)
        [wAtom]) 0 0 0 0 = 0 ∨
      gridVal (rasterizeList ⟨0, 0, 0⟩ (allocate_grid ⟨0, 0, 0⟩ ⟨1, 1, 1⟩)
        [wAtom]) 0 0 0 0 = 1) ∧
    ((allocate_grid ⟨0, 0, 0⟩ ⟨1, 1, 1⟩).val 0 0 0 0 = 1 →
      gridVal (rasterizeList ⟨0, 0, 0⟩ (allocate_grid ⟨0, 0, 0⟩ ⟨1, 1, 1⟩)
        [wAtom]) 0 0 0 0 = 1) :=
  grid_monotone_binary (by with_unfolding_all decide)
    (fun i j k c => Or.inl rfl) 0 0 0 0

end Voxel
